import Mathlib

/-!
Verification development for the claude-buddy hook dispatcher.

This file gives a shallow embedding of the parts of the repository that the
verified properties talk about:

* `src/tools/concurrency/concurrency.py` — the file-system resource pool
  (`GlobalConcurrencyManager`): lock-file staleness, the stale sweep, the
  atomic acquire under the pool-wide lock, scoped release, and the advisory
  operations `can_acquire_resource` / `get_status`.
* `src/hooks/tdd_guard/hook.py` — the validation-gate hook: failure
  semantics of `_validate_tdd_compliance` and response interpretation in
  `_parse_tdd_response`.
* `src/hooks/post_tool_linter/hook.py` — the linter/auto-fix hook:
  `process_event` decisions and the permit-holding trace of
  `_execute_autofix_with_resource` / `_run_autofix_iterations`.
* `src/hooks/context7_docs/hook.py` — the stdio JSON-RPC handshake of
  `_call_mcp_server`.

Conventions of the embedding: the pool directory is a `List LockFile`;
wall-clock time and process liveness are supplied by an explicit
environment; Python exceptions that escape a function are modelled with an
explicit flag or `Except`; `os.unlink` is modelled as succeeding (the code
swallows `OSError` from unlink; a file surviving a failed unlink is outside
this model).
-/

namespace ClaudeBuddy

/-- Outcome of `os.kill(pid, 0)` in `_is_process_dead`: the process is
alive, or `ProcessLookupError` is raised (no such process), or
`PermissionError` is raised (process exists but owned by another user). -/
inductive ProbeResult
  | alive
  | noSuchProcess
  | permissionDenied
deriving DecidableEq, Repr

/-- The data recorded in a lock file, as read back by `_read_lock_data`.
`timestamp` models `lock_data.get("timestamp", 0)` (absent field reads as
0 at the use site, so we keep it total). `pid` models the `pid` field:
`none` stands for an absent or `null` field; note that a recorded pid of
`0` is falsy in Python, which matters for `_check_lock_staleness`. -/
structure LockData where
  pool : String
  timestamp : Int
  pid : Option Int
  id : String
deriving DecidableEq, Repr

/-- One file in a pool directory. `data = none` models a file that
`_read_lock_data` cannot read or parse as a JSON object (it returns
`None`, and `_is_lock_stale` treats the lock as stale). -/
structure LockFile where
  name : String
  data : Option LockData
deriving DecidableEq, Repr

/-- The ambient state the concurrency manager consults: the current time
(`time.time()`), the configured `stale_lock_timeout`, the behaviour of
`os.kill(pid, 0)` for each pid on the host, and this process's own pid
(`os.getpid()`). -/
structure Env where
  now : Int
  staleTimeout : Int
  liveness : Int → ProbeResult
  selfPid : Int

/-- Model of `_is_process_dead`: sends signal 0; returns `False` when the process
is alive, `True` on `ProcessLookupError`. A `PermissionError` is NOT
caught there and propagates to the caller, modelled as `.error ()`. -/
def isProcessDead (env : Env) (pid : Int) : Except Unit Bool :=
  match env.liveness pid with
  | ProbeResult.alive => Except.ok false
  | ProbeResult.noSuchProcess => Except.ok true
  | ProbeResult.permissionDenied => Except.error ()

/-- Model of `_check_lock_staleness`: stale when the timestamp is older than
`stale_timeout`; otherwise, when the record carries a truthy pid, defer to
`_is_process_dead`; otherwise not stale. A falsy pid (absent, null or 0)
skips the liveness probe entirely. -/
def checkLockStaleness (env : Env) (d : LockData) : Except Unit Bool :=
  if env.now - d.timestamp > env.staleTimeout then
    Except.ok true
  else
    match d.pid with
    | some p => if p ≠ 0 then isProcessDead env p else Except.ok false
    | none => Except.ok false

/-- Model of `_is_lock_stale`: unreadable or malformed lock data is stale;
otherwise defer to `_check_lock_staleness`. -/
def isLockStale (env : Env) (f : LockFile) : Except Unit Bool :=
  match f.data with
  | none => Except.ok true
  | some d => checkLockStaleness env d

/-- Model of `_cleanup_stale_locks`: iterate over the pool directory, unlinking
each file judged stale. If the staleness check raises (the uncaught
`PermissionError` from the probe), iteration stops there and the exception
propagates: the second component is `true` and the file at the exception
point together with the unprocessed suffix remain in the directory. -/
def cleanupStaleLocks (env : Env) : List LockFile → List LockFile × Bool
  | [] => ([], false)
  | f :: fs =>
    match isLockStale env f with
    | Except.error _ => (f :: fs, true)
    | Except.ok true => cleanupStaleLocks env fs
    | Except.ok false =>
      let rest := cleanupStaleLocks env fs
      (f :: rest.1, rest.2)

/-- Decidable equality for `Except`, used to test staleness-check
results. -/
instance {ε α : Type} [DecidableEq ε] [DecidableEq α] :
    DecidableEq (Except ε α) := fun a b =>
  match a, b with
  | Except.ok x, Except.ok y =>
    if h : x = y then isTrue (by rw [h])
    else isFalse (by intro he; cases he; exact h rfl)
  | Except.error x, Except.error y =>
    if h : x = y then isTrue (by rw [h])
    else isFalse (by intro he; cases he; exact h rfl)
  | Except.ok _, Except.error _ => isFalse (by intro h; cases h)
  | Except.error _, Except.ok _ => isFalse (by intro h; cases h)

/-- Count of non-stale lock files in a pool directory: files whose
staleness check definitely returns `False`. -/
def nonStaleCount (env : Env) (dir : List LockFile) : Nat :=
  dir.countP fun f => decide (isLockStale env f = Except.ok false)

/-- Model of `_create_resource_lock_atomic`, the critical section executed while
holding the pool-wide `.<pool>_global.lock` flock: sweep stale locks,
count the remaining `*.json` files, and create a fresh lock file (named
after the fresh 8-hex-digit `lockId`, recording the current time and this
process's pid) only when the count is strictly below `maxRes`. If the
sweep raises (probe `PermissionError`), the exception escapes the critical
section and is caught by `_acquire_with_global_lock`'s `except OSError`,
which returns `None`: no file is created, and the directory keeps the
partial sweep's state. -/
def createResourceLockAtomic (env : Env) (pool : String) (maxRes : Nat)
    (lockId : String) (dir : List LockFile) : Option LockFile × List LockFile :=
  let swept := cleanupStaleLocks env dir
  if swept.2 then (none, swept.1)
  else if maxRes ≤ swept.1.length then (none, swept.1)
  else
    let f : LockFile :=
      ⟨lockId ++ ".json", some ⟨pool, env.now, some env.selfPid, lockId⟩⟩
    (some f, swept.1 ++ [f])

/-- Model of `_release_lock_file`: if a lock file was created and still exists,
unlink it (modelled as removing every file with that name); releasing
`None` is a no-op. -/
def releaseLockFile (lockFile : Option LockFile) (dir : List LockFile) :
    List LockFile :=
  match lockFile with
  | none => dir
  | some f => dir.filter fun g => !(g.name == f.name)

/-- Model of `acquire_resource`, the context-manager scope: for an unknown pool it
yields `False` and runs no release; for a known pool it attempts the
atomic acquisition, yields whether a lock file was created while the
`body` of the scope runs (the body may transform the directory
arbitrarily, whether it returns or raises), and in the `finally` block
always calls `_release_lock_file` on the created lock. Retries of the
atomic attempt under a nonzero timeout only repeat attempts that create
nothing, so a single attempt models the acquisition. -/
def acquireResourceScope (env : Env) (poolKnown : Bool) (pool : String)
    (maxRes : Nat) (lockId : String)
    (body : Bool → List LockFile → List LockFile)
    (dir : List LockFile) : List LockFile :=
  if poolKnown then
    let attempt := createResourceLockAtomic env pool maxRes lockId dir
    releaseLockFile attempt.1 (body attempt.1.isSome attempt.2)
  else
    body false dir

/-- Model of `can_acquire_resource`: for an unknown pool, `False` with no side
effect; otherwise run the stale sweep via `_count_active_locks` and
compare the surviving count with `max`. A sweep exception propagates to
the caller (first component `none`), with the partial sweep persisted. -/
def canAcquireResource (env : Env) (poolKnown : Bool) (maxRes : Nat)
    (dir : List LockFile) : Option Bool × List LockFile :=
  if poolKnown then
    let swept := cleanupStaleLocks env dir
    if swept.2 then (none, swept.1)
    else (some (decide (swept.1.length < maxRes)), swept.1)
  else (some false, dir)

/-- Model of `get_status`: for each configured pool, in order, run
`_count_active_locks` (which sweeps that pool's directory) and record
`(name, current, available = max - current)`. A sweep exception aborts
the loop, leaving earlier pools swept; the flag in the result is `true`
exactly when that happened. The second component is the post-call state
of every pool directory. -/
def getStatus (env : Env) :
    List (String × Nat × List LockFile) →
      List (String × Nat × Int) × List (String × Nat × List LockFile) × Bool
  | [] => ([], [], false)
  | (pname, maxRes, dir) :: rest =>
    let swept := cleanupStaleLocks env dir
    if swept.2 then ([], (pname, maxRes, swept.1) :: rest, true)
    else
      let r := getStatus env rest
      ((pname, swept.1.length, (maxRes : Int) - (swept.1.length : Int)) :: r.1,
       (pname, maxRes, swept.1) :: r.2.1, r.2.2)

/-! TDD-guard validation-gate hook (`src/hooks/tdd_guard/hook.py`). -/

/-- Structured view of the `validationResults` object of a validator
response. Fields the code probes with `in` are `Option`s. -/
structure ValidationResults where
  tddPhase : Option String
  testCoverage : Option Int
deriving DecidableEq, Repr

/-- Structured view of a validator response that parsed as a JSON object.
Each `Option` field is `none` when the key is absent (the code reads keys
via `get` with defaults or probes them with `in`). The embedding assumes
present fields carry the documented types. -/
structure TddResponse where
  decision : Option String
  stopReason : Option String
  reason : Option String
  validationResults : Option ValidationResults
  suggestions : Option (List String)
deriving DecidableEq, Repr

/-- Message lines contributed by `validationResults` in
`_parse_tdd_response`. -/
def validationParts : Option ValidationResults → List String
  | none => []
  | some v =>
    (match v.tddPhase with
     | some ph => ["🔄 TDD Phase: " ++ ph]
     | none => []) ++
    (match v.testCoverage with
     | some c => ["📊 Coverage: " ++ toString c ++ "%"]
     | none => [])

/-- Message lines contributed by `suggestions` (at most 3 bullets) in
`_parse_tdd_response`. -/
def suggestionParts (ss : List String) : List String :=
  "💡 Suggestions:" :: (ss.take 3).map fun s => "  • " ++ s

/-- Body of `_parse_tdd_response` for a response that parsed as a JSON
object: `decision` defaults to "approve"; the message accumulates the
stop reason (rejections only), the non-empty `reason`, the
`validationResults` lines, and (rejections only) up to 3 suggestions,
joined by newlines. -/
def interpretTddResponse (r : TddResponse) : Bool × String :=
  let decision := r.decision.getD "approve"
  let shouldContinue := decision == "approve"
  let parts1 : List String :=
    if shouldContinue then []
    else ["🛑 " ++ r.stopReason.getD "TDD validation failed"]
  let reason := r.reason.getD ""
  let parts2 := if reason.isEmpty then parts1 else parts1 ++ [reason]
  let parts3 := parts2 ++ validationParts r.validationResults
  let parts4 :=
    if !shouldContinue && r.suggestions.isSome then
      parts3 ++ suggestionParts (r.suggestions.getD [])
    else parts3
  (shouldContinue, String.intercalate "\n" parts4)

/-- Abstraction of the validator subprocess's stdout as seen by
`_parse_tdd_response`. -/
inductive ValidatorStdout
  | blank
  | invalidJson
  | parsedNonDict
  | parsedDict (r : TddResponse)
deriving DecidableEq, Repr

/-- Model of `_parse_tdd_response` on raw stdout. Blank output returns
`(True, "")`. On `json.JSONDecodeError`, and on any exception from a
non-object value, the handler itself hits an undefined `logger` name, so
a `NameError` escapes the function (modelled as `.error ()`); the caller
catches it. -/
def parseTddResponse : ValidatorStdout → Except Unit (Bool × String)
  | ValidatorStdout.blank => Except.ok (true, "")
  | ValidatorStdout.invalidJson => Except.error ()
  | ValidatorStdout.parsedNonDict => Except.error ()
  | ValidatorStdout.parsedDict r => Except.ok (interpretTddResponse r)

/-- Outcome of the `subprocess.run` call on the validator CLI. -/
inductive ValidatorOutcome
  | timedOut
  | raised
  | completed (returncode : Int) (stdout : ValidatorStdout)
deriving DecidableEq, Repr

/-- Model of `_validate_tdd_compliance`: unavailable tool or any exception is
fail-open; `subprocess.TimeoutExpired` blocks exactly in strict mode;
nonzero exit is fail-open; otherwise the parsed response decides, with a
parse-time exception caught fail-open. -/
def validateTddCompliance (strictMode toolAvailable : Bool)
    (outcome : ValidatorOutcome) : Bool × String :=
  if !toolAvailable then
    (true, "⚠️ TDD-Guard not available - skipping validation")
  else
    match outcome with
    | ValidatorOutcome.timedOut =>
      if strictMode then
        (false, "🛑 TDD validation timed out - blocking operation (strict mode). Try again in a moment.")
      else
        (true, "⚠️ TDD validation timed out - allowing operation")
    | ValidatorOutcome.raised =>
      (true, "⚠️ TDD validation failed - allowing operation")
    | ValidatorOutcome.completed rc out =>
      if rc ≠ 0 then (true, "⚠️ TDD validation error - allowing operation")
      else
        match parseTddResponse out with
        | Except.ok res => res
        | Except.error _ =>
          (true, "⚠️ TDD validation failed - allowing operation")

/-! Post-tool linter hook (`src/hooks/post_tool_linter/hook.py`). -/

/-- Model of `PostToolLinterHook.process_event`, with its collaborators supplied
as oracles: `shouldProcess` is `should_process_file`, `run1`/`run2` the
two `run_linters` results (pass flag and report), `autoFix` the
`settings.auto_fix` flag, `managerOk` the `isinstance` check on the
concurrency manager, `autofixExit` the exit code of
`process_file_with_autofix`, and `baseName` `os.path.basename`. -/
def linterProcessEvent (eventType toolName : String) (filePath : Option String)
    (shouldProcess : Bool) (run1 : Bool × String) (autoFix managerOk : Bool)
    (autofixExit : Int) (run2 : Bool × String) (baseName : String) :
    Bool × String :=
  if eventType ≠ "PostToolUse" then (true, "")
  else if !(["Edit", "Write", "MultiEdit", "NotebookEdit"].contains toolName) then
    (true, "")
  else
    match filePath with
    | none => (true, "")
    | some _ =>
      if !shouldProcess then (true, "")
      else if run1.1 then
        (true, "✅ " ++ baseName ++ " - No linting issues found")
      else if autoFix then
        if managerOk then
          if autofixExit = 0 then
            if run2.1 then
              (true, "✅ " ++ baseName ++ " - All linting issues fixed successfully!")
            else
              (true, "⚠️ " ++ baseName ++
                " - Claude autofix completed but some issues remain:\n" ++ run2.2)
          else
            (true, "❌ " ++ baseName ++
              " - Claude autofix failed, issues remain:\n" ++ run1.2)
        else
          (true, "⚠️ " ++ baseName ++ " has linting issues but auto-fix disabled")
      else
        (true, "⚠️ " ++ baseName ++ " has linting issues:\n" ++ run1.2.take 500)

/-- Observable events of the auto-fix loop, for the permit-holding
analysis: permit acquisition/release of the `agents` pool, the auto-fix
subprocess call (`run_autofix_iteration`), and a linter run
(`run_linters`). -/
inductive AgentEv
  | acquirePermit
  | releasePermit
  | subprocCall
  | linterRun
deriving DecidableEq, Repr

/-- Event trace of `_run_autofix_iterations`: per iteration, the auto-fix
subprocess runs; on failure the loop breaks; on success the linters are
re-run and the loop ends if they pass. `outcomes` lists, per available
iteration (up to `max_iterations`), the subprocess success flag and the
subsequent linters-pass flag. -/
def runAutofixIterationsTrace : List (Bool × Bool) → List AgentEv
  | [] => []
  | (success, allPass) :: rest =>
    if !success then [AgentEv.subprocCall]
    else
      AgentEv.subprocCall :: AgentEv.linterRun ::
        (if allPass then [] else runAutofixIterationsTrace rest)

/-- Event trace of `_execute_autofix_with_resource`: acquire one `agents`
permit (with a 10-minute deadline), run the whole iteration loop inside
the `with` block, and release on scope exit. When the permit is not
obtained the function returns without running anything. -/
def executeAutofixTrace (acquired : Bool) (outcomes : List (Bool × Bool)) :
    List AgentEv :=
  if acquired then
    AgentEv.acquirePermit :: runAutofixIterationsTrace outcomes ++
      [AgentEv.releasePermit]
  else []

/-- The permit is held at position `i` of a trace when an acquisition
occurs strictly before `i` and no release occurs strictly before `i`. -/
def heldAt (tr : List AgentEv) (i : Nat) : Prop :=
  AgentEv.acquirePermit ∈ tr.take i ∧ AgentEv.releasePermit ∉ tr.take i

instance (tr : List AgentEv) (i : Nat) : Decidable (heldAt tr i) := by
  unfold heldAt
  infer_instance

/-! Context7 docs hook, stdio JSON-RPC handshake
(`src/hooks/context7_docs/hook.py`, `_call_mcp_server`). -/

/-- The fields of a JSON-RPC record the handshake claim talks about:
envelope version, method, optional id, and for `initialize` the protocol
version, capabilities block and client info. -/
structure McpMessage where
  jsonrpc : String
  method : String
  id : Option Nat
  protocolVersion : Option String
  hasCapabilities : Bool
  clientName : Option String
  clientVersion : Option String
deriving DecidableEq, Repr

/-- The `initialize` request built by `_call_mcp_server`: protocol
version `2024-11-05`, a capabilities block, client info
`claude-buddy`/`1.0.0`, id 0. -/
def initializeRequest : McpMessage :=
  ⟨"2.0", "initialize", some 0, some "2024-11-05", true,
    some "claude-buddy", some "1.0.0"⟩

/-- The `notifications/initialized` notification: no id, no params of
interest. -/
def initializedNotification : McpMessage :=
  ⟨"2.0", "notifications/initialized", none, none, false, none, none⟩

/-- One step of the stdio conversation: write one newline-terminated JSON
record to the child's stdin, or read one line from its stdout. -/
inductive StdioAction
  | writeLine (m : McpMessage)
  | readLine
deriving DecidableEq, Repr

/-- The stdio branch of `_call_mcp_server` as its stdin/stdout action
trace: write `initialize`, read one response line, write the
`notifications/initialized` notification, write the caller's request,
read one response line. -/
def callMcpServer (req : McpMessage) : List StdioAction :=
  [StdioAction.writeLine initializeRequest,
   StdioAction.readLine,
   StdioAction.writeLine initializedNotification,
   StdioAction.writeLine req,
   StdioAction.readLine]

/-- The JSON records a trace writes, in order. -/
def writesOf (tr : List StdioAction) : List McpMessage :=
  tr.filterMap fun a =>
    match a with
    | StdioAction.writeLine m => some m
    | StdioAction.readLine => none

/-- Claim C5 helper: a lock file in a concrete environment used by the
witnesses below. -/
def envW : Env :=
  { now := 1000
    staleTimeout := 300
    liveness := fun p => if p = 7 then ProbeResult.permissionDenied
                         else if p = 9 then ProbeResult.noSuchProcess
                         else ProbeResult.alive
    selfPid := 42 }

/-- A stale lock file in `envW`: its timestamp (100) is 900 seconds in
the past, past the 300-second stale timeout. -/
def deadLockW : LockFile := ⟨"dead.json", some ⟨"agents", 100, some 9, "dead"⟩⟩

/-- A live lock file in `envW`: fresh timestamp, live pid. -/
def liveLockW : LockFile := ⟨"live.json", some ⟨"agents", 950, some 5, "live"⟩⟩

/-- The stale sweep only removes files: its result is a sublist of the
input directory. -/
theorem cleanupStaleLocks_sublist (env : Env) (dir : List LockFile) :
    List.Sublist (cleanupStaleLocks env dir).1 dir := by
  induction dir with
  | nil => simp [cleanupStaleLocks]
  | cons f fs ih =>
    cases h : isLockStale env f with
    | error e =>
      simp only [cleanupStaleLocks, h]
      exact List.Sublist.refl _
    | ok b =>
      cases b with
      | true =>
        simpa only [cleanupStaleLocks, h] using List.Sublist.cons f ih
      | false =>
        simpa only [cleanupStaleLocks, h] using List.Sublist.cons₂ f ih

/-- When the stale sweep completes without raising, every file it judged
stale is gone from the resulting directory. -/
theorem sweep_removes_stale (env : Env) (dir : List LockFile)
    (hnr : (cleanupStaleLocks env dir).2 = false) :
    ∀ f ∈ dir, isLockStale env f = Except.ok true →
      f ∉ (cleanupStaleLocks env dir).1 := by
  induction dir with
  | nil => intro f hf; cases hf
  | cons g gs ih =>
    intro f hf hstale
    cases h : isLockStale env g with
    | error e =>
      rw [show cleanupStaleLocks env (g :: gs) = (g :: gs, true) by
        simp [cleanupStaleLocks, h]] at hnr
      cases hnr
    | ok b =>
      cases b with
      | true =>
        have hnr' : (cleanupStaleLocks env gs).2 = false := by
          simpa only [cleanupStaleLocks, h] using hnr
        simp only [cleanupStaleLocks, h]
        intro hmem
        have hfgs : f ∈ gs :=
          (cleanupStaleLocks_sublist env gs).subset hmem
        exact ih hnr' f hfgs hstale hmem
      | false =>
        have hnr' : (cleanupStaleLocks env gs).2 = false := by
          simpa only [cleanupStaleLocks, h] using hnr
        have hfg : f ≠ g := by
          intro he
          rw [he, h] at hstale
          cases hstale
        have hfgs : f ∈ gs := by
          rcases List.mem_cons.mp hf with h1 | h1
          · exact absurd h1 hfg
          · exact h1
        simp only [cleanupStaleLocks, h]
        intro hmem
        rcases List.mem_cons.mp hmem with h1 | h1
        · exact hfg h1
        · exact ih hnr' f hfgs hstale h1

/-- C1: `_create_resource_lock_atomic`, the critical section run under
the pool-wide exclusive flock, creates a new lock file only when the
stale sweep completed without raising and the count of lock files left in
the pool directory is strictly below `max`; consequently an acquire
attempt never pushes the number of non-stale lock files in the pool
directory above `max`. -/
theorem pool_capacity_bound (env : Env) (pool lockId : String) (maxRes : Nat)
    (dir : List LockFile) :
    (∀ f, (createResourceLockAtomic env pool maxRes lockId dir).1 = some f →
      (cleanupStaleLocks env dir).2 = false ∧
      (cleanupStaleLocks env dir).1.length < maxRes) ∧
    (nonStaleCount env dir ≤ maxRes →
      nonStaleCount env (createResourceLockAtomic env pool maxRes lockId dir).2 ≤
        maxRes) := by
  have hsub := cleanupStaleLocks_sublist env dir
  have hmono : nonStaleCount env (cleanupStaleLocks env dir).1 ≤
      nonStaleCount env dir := List.Sublist.countP_le _ hsub
  constructor
  · intro f hf
    by_cases h2 : (cleanupStaleLocks env dir).2 = true
    · simp [createResourceLockAtomic, h2] at hf
    · have h2' : (cleanupStaleLocks env dir).2 = false := by simpa using h2
      by_cases hle : maxRes ≤ (cleanupStaleLocks env dir).1.length
      · simp [createResourceLockAtomic, h2', hle] at hf
      · exact ⟨h2', Nat.lt_of_not_le hle⟩
  · intro hb
    by_cases h2 : (cleanupStaleLocks env dir).2 = true
    · simp only [createResourceLockAtomic, h2, if_true]
      exact le_trans hmono hb
    · have h2' : (cleanupStaleLocks env dir).2 = false := by simpa using h2
      by_cases hle : maxRes ≤ (cleanupStaleLocks env dir).1.length
      · simp only [createResourceLockAtomic, h2', Bool.false_eq_true, if_false,
          if_pos hle]
        exact le_trans hmono hb
      · simp only [createResourceLockAtomic, h2', Bool.false_eq_true, if_false,
          if_neg hle]
        refine le_trans (List.countP_le_length _) ?_
        rw [List.length_append]
        exact Nat.succ_le_of_lt (Nat.lt_of_not_le hle)

/-- Witness for C1 at concrete inputs: in a pool of capacity 1 whose
directory holds one stale lock, the acquire attempt sweeps, sees 0 < 1,
creates the lock, and the non-stale count stays within capacity. -/
theorem pool_capacity_bound_witness :
    ((cleanupStaleLocks envW [deadLockW]).2 = false ∧
      (cleanupStaleLocks envW [deadLockW]).1.length < 1) ∧
    nonStaleCount envW
      (createResourceLockAtomic envW "agents" 1 "beef" [deadLockW]).2 ≤ 1 :=
  ⟨(pool_capacity_bound envW "agents" "beef" 1 [deadLockW]).1
      ⟨"beef.json", some ⟨"agents", 1000, some 42, "beef"⟩⟩ (by decide),
   (pool_capacity_bound envW "agents" "beef" 1 [deadLockW]).2 (by decide)⟩

/-- C4: whatever the scope body does to the directory (normal return or
raise — the `finally` clause runs either way), after an
`acquire_resource` scope exits no file bearing the created lock file's
name remains in the pool directory; a failed acquisition releases
nothing, and an unknown pool neither acquires nor releases. -/
theorem scoped_release (env : Env) (pool lockId : String) (maxRes : Nat)
    (body : Bool → List LockFile → List LockFile) (dir : List LockFile) :
    (∀ f, (createResourceLockAtomic env pool maxRes lockId dir).1 = some f →
      ∀ g ∈ acquireResourceScope env true pool maxRes lockId body dir,
        g.name ≠ f.name) ∧
    ((createResourceLockAtomic env pool maxRes lockId dir).1 = none →
      acquireResourceScope env true pool maxRes lockId body dir =
        body false (createResourceLockAtomic env pool maxRes lockId dir).2) ∧
    acquireResourceScope env false pool maxRes lockId body dir =
      body false dir := by
  refine ⟨?_, ?_, rfl⟩
  · intro f hf g hg
    have hscope : acquireResourceScope env true pool maxRes lockId body dir =
        releaseLockFile (createResourceLockAtomic env pool maxRes lockId dir).1
          (body (createResourceLockAtomic env pool maxRes lockId dir).1.isSome
            (createResourceLockAtomic env pool maxRes lockId dir).2) := rfl
    rw [hscope, hf] at hg
    simp only [releaseLockFile] at hg
    have h2 := (List.mem_filter.mp hg).2
    simpa using h2
  · intro hf
    have hscope : acquireResourceScope env true pool maxRes lockId body dir =
        releaseLockFile (createResourceLockAtomic env pool maxRes lockId dir).1
          (body (createResourceLockAtomic env pool maxRes lockId dir).1.isSome
            (createResourceLockAtomic env pool maxRes lockId dir).2) := rfl
    rw [hscope, hf]
    rfl

/-- Witness for C4 at concrete inputs: acquiring from an empty
capacity-1 pool creates `beef.json`, and after the scope (with an
identity body) exits that file is gone. -/
theorem scoped_release_witness :
    (⟨"beef.json", some ⟨"agents", 1000, some 42, "beef"⟩⟩ : LockFile) ∉
      acquireResourceScope envW true "agents" 1 "beef" (fun _ d => d) [] :=
  fun hmem =>
    (scoped_release envW "agents" "beef" 1 (fun _ d => d) []).1
      ⟨"beef.json", some ⟨"agents", 1000, some 42, "beef"⟩⟩ (by decide)
      ⟨"beef.json", some ⟨"agents", 1000, some 42, "beef"⟩⟩ hmem rfl

/-- C9: the advisory operations are not read-only. For a known pool,
`can_acquire_resource` rewrites the pool directory to exactly the swept
directory — a sublist of the original in which (when the sweep does not
raise) no stale lock file survives — while granting no permit; and
`get_status`, when no sweep raises, leaves every configured pool's
directory swept, likewise with every stale lock file deleted. -/
theorem advisory_ops_sweep (env : Env) (maxRes : Nat) (dir : List LockFile)
    (pools : List (String × Nat × List LockFile)) :
    ((canAcquireResource env true maxRes dir).2 = (cleanupStaleLocks env dir).1 ∧
     List.Sublist (canAcquireResource env true maxRes dir).2 dir ∧
     ((cleanupStaleLocks env dir).2 = false →
       ∀ f ∈ dir, isLockStale env f = Except.ok true →
         f ∉ (canAcquireResource env true maxRes dir).2)) ∧
    ((∀ q ∈ pools, (cleanupStaleLocks env q.2.2).2 = false) →
      (getStatus env pools).2.1 =
        pools.map (fun q => (q.1, q.2.1, (cleanupStaleLocks env q.2.2).1)) ∧
      ∀ q ∈ pools, ∀ f ∈ q.2.2, isLockStale env f = Except.ok true →
        f ∉ (cleanupStaleLocks env q.2.2).1) := by
  have hdir : (canAcquireResource env true maxRes dir).2 =
      (cleanupStaleLocks env dir).1 := by
    by_cases h2 : (cleanupStaleLocks env dir).2 = true
    · simp [canAcquireResource, h2]
    · have h2' : (cleanupStaleLocks env dir).2 = false := by simpa using h2
      simp [canAcquireResource, h2']
  refine ⟨⟨hdir, ?_, ?_⟩, ?_⟩
  · rw [hdir]
    exact cleanupStaleLocks_sublist env dir
  · intro hnr f hf hstale
    rw [hdir]
    exact sweep_removes_stale env dir hnr f hf hstale
  · intro hall
    constructor
    · induction pools with
      | nil => rfl
      | cons q rest ih =>
        obtain ⟨pname, maxRes', d⟩ := q
        have hq : (cleanupStaleLocks env d).2 = false :=
          hall (pname, maxRes', d) (List.mem_cons_self _ _)
        have hrest : ∀ q ∈ rest, (cleanupStaleLocks env q.2.2).2 = false :=
          fun q hq' => hall q (List.mem_cons_of_mem _ hq')
        simp only [getStatus, hq, Bool.false_eq_true, if_false, List.map_cons]
        exact congrArg _ (ih hrest)
    · intro q hq f hf hstale
      exact sweep_removes_stale env q.2.2
        (hall q hq) f hf hstale

/-- Witness for C9 at concrete inputs: after `can_acquire_resource` on a
directory holding one stale and one live lock, the stale file is gone;
and `get_status` over that single pool leaves its directory swept to just
the live lock. -/
theorem advisory_ops_sweep_witness :
    deadLockW ∉ (canAcquireResource envW true 3 [deadLockW, liveLockW]).2 ∧
    (getStatus envW [("agents", 3, [deadLockW, liveLockW])]).2.1 =
      [("agents", 3, [liveLockW])] :=
  ⟨(advisory_ops_sweep envW 3 [deadLockW, liveLockW] []).1.2.2 (by decide)
      deadLockW (by simp) (by decide),
   by
    have h := (advisory_ops_sweep envW 3 []
        [("agents", 3, [deadLockW, liveLockW])]).2 (by decide)
    rw [h.1]
    decide⟩

/-- C5: a lock file is judged stale (the check returns `ok true`) iff its
data is unreadable/malformed, or its timestamp is more than
`stale_timeout` seconds in the past, or it records a truthy pid whose
liveness probe raises no-such-process. A permission error from the probe
never judges the lock stale: when the timestamp is fresh and the recorded
pid's probe raises `PermissionError`, the check raises instead (the
exception propagates) and in particular does not return `ok true`. -/
theorem lock_stale_iff (env : Env) (f : LockFile) :
    (isLockStale env f = Except.ok true ↔
      (f.data = none ∨
        ∃ d, f.data = some d ∧
          (env.now - d.timestamp > env.staleTimeout ∨
            ∃ p, d.pid = some p ∧ p ≠ 0 ∧
              env.liveness p = ProbeResult.noSuchProcess))) ∧
    (∀ d p, f.data = some d → d.pid = some p → p ≠ 0 →
      ¬ env.now - d.timestamp > env.staleTimeout →
      env.liveness p = ProbeResult.permissionDenied →
      isLockStale env f = Except.error ()) := by
  constructor
  · cases f with
    | mk name data =>
      cases data with
      | none => simp [isLockStale]
      | some d =>
        simp only [isLockStale, checkLockStaleness]
        by_cases hts : env.now - d.timestamp > env.staleTimeout
        · simp [hts]
        · simp only [if_neg hts]
          cases hpid : d.pid with
          | none => simp [hts, hpid]
          | some p =>
            by_cases hp : p = 0
            · subst hp
              simp [hts, hpid]
            · simp only [if_pos hp, isProcessDead]
              cases hl : env.liveness p with
              | alive =>
                simp only [hl]
                constructor
                · intro h
                  exact absurd h (by simp)
                · rintro (h | ⟨d', hd', h⟩)
                  · exact absurd h (by simp)
                  · rcases h with h | ⟨q, hq, hq0, hql⟩
                    · cases hd'
                      exact absurd h hts
                    · cases hd'
                      rw [hpid] at hq
                      cases hq
                      rw [hl] at hql
                      cases hql
              | noSuchProcess =>
                simp only [hl]
                constructor
                · intro _
                  exact Or.inr ⟨d, rfl, Or.inr ⟨p, hpid, hp, hl⟩⟩
                · intro _
                  trivial
              | permissionDenied =>
                simp only [hl]
                constructor
                · intro h
                  exact absurd h (by simp)
                · rintro (h | ⟨d', hd', h⟩)
                  · exact absurd h (by simp)
                  · rcases h with h | ⟨q, hq, hq0, hql⟩
                    · cases hd'
                      exact absurd h hts
                    · cases hd'
                      rw [hpid] at hq
                      cases hq
                      rw [hl] at hql
                      cases hql
  · intro d p hd hp hp0 hts hperm
    cases f with
    | mk name data =>
      simp only at hd
      subst hd
      simp only [isLockStale, checkLockStaleness, if_neg hts, hp,
        if_pos hp0, isProcessDead, hperm]

/-- Witness for C5 at concrete inputs: a fresh lock owned by pid 7, whose
probe raises `PermissionError` in `envW`, makes the staleness check raise
rather than judge the lock stale. -/
theorem lock_stale_iff_witness :
    isLockStale envW ⟨"a.json", some ⟨"agents", 900, some 7, "a"⟩⟩ =
      Except.error () :=
  (lock_stale_iff envW ⟨"a.json", some ⟨"agents", 900, some 7, "a"⟩⟩).2
    ⟨"agents", 900, some 7, "a"⟩ 7 rfl rfl (by decide) (by decide) (by decide)

/-- C10: a lock record whose pid field is absent, null or 0 is never
judged stale by the liveness test: with a fresh timestamp the staleness
check returns `ok false`, and such a file always survives the stale sweep
of its pool directory — it keeps counting as a live permit. -/
theorem falsy_pid_lock_counts_as_live (env : Env) (d : LockData)
    (hfresh : ¬ env.now - d.timestamp > env.staleTimeout)
    (hpid : d.pid = none ∨ d.pid = some 0) :
    checkLockStaleness env d = Except.ok false ∧
    ∀ (dir : List LockFile) (f : LockFile), f.data = some d → f ∈ dir →
      f ∈ (cleanupStaleLocks env dir).1 := by
  have hchk : checkLockStaleness env d = Except.ok false := by
    cases hpid with
    | inl h => simp [checkLockStaleness, if_neg hfresh, h]
    | inr h => simp [checkLockStaleness, if_neg hfresh, h]
  refine ⟨hchk, ?_⟩
  intro dir f hf hmem
  have hstale : isLockStale env f = Except.ok false := by
    cases f with
    | mk name data =>
      simp only at hf
      subst hf
      simpa [isLockStale] using hchk
  induction dir with
  | nil => cases hmem
  | cons g gs ih =>
    rcases List.mem_cons.mp hmem with hgf | hmem'
    · subst hgf
      simp [cleanupStaleLocks, hstale]
    · simp only [cleanupStaleLocks]
      cases hg : isLockStale env g with
      | error e =>
        exact List.mem_cons_of_mem g hmem'
      | ok b =>
        cases b with
        | true => exact ih hmem'
        | false => exact List.mem_cons_of_mem g (ih hmem')

/-- Witness for C10 at concrete inputs: a fresh lock with a null pid is
judged live and survives a sweep that removes a genuinely stale sibling. -/
theorem falsy_pid_lock_counts_as_live_witness :
    checkLockStaleness envW ⟨"agents", 900, none, "b"⟩ = Except.ok false ∧
    (⟨"b.json", some ⟨"agents", 900, none, "b"⟩⟩ : LockFile) ∈
      (cleanupStaleLocks envW
        [⟨"dead.json", some ⟨"agents", 100, some 9, "dead"⟩⟩,
         ⟨"b.json", some ⟨"agents", 900, none, "b"⟩⟩]).1 :=
  ⟨(falsy_pid_lock_counts_as_live envW ⟨"agents", 900, none, "b"⟩
      (by decide) (Or.inl rfl)).1,
   (falsy_pid_lock_counts_as_live envW ⟨"agents", 900, none, "b"⟩
      (by decide) (Or.inl rfl)).2
     [⟨"dead.json", some ⟨"agents", 100, some 9, "dead"⟩⟩,
      ⟨"b.json", some ⟨"agents", 900, none, "b"⟩⟩]
     ⟨"b.json", some ⟨"agents", 900, none, "b"⟩⟩ rfl (by simp)⟩

/-- C2: failure semantics of `_validate_tdd_compliance` with the
validator tool available: a subprocess timeout blocks exactly in strict
mode (continue is the negation of strict); every other failure — an
exception during the call, a nonzero exit code, blank stdout,
JSON-undecodable stdout, or a response that is not a JSON object — is
fail-open (continue = true) regardless of strict mode. -/
theorem tdd_failure_semantics (strict : Bool) (rc : Int) (s : ValidatorStdout) :
    (validateTddCompliance strict true ValidatorOutcome.timedOut).1 = !strict ∧
    (validateTddCompliance strict true ValidatorOutcome.raised).1 = true ∧
    (rc ≠ 0 →
      (validateTddCompliance strict true
        (ValidatorOutcome.completed rc s)).1 = true) ∧
    (validateTddCompliance strict true
      (ValidatorOutcome.completed 0 ValidatorStdout.blank)).1 = true ∧
    (validateTddCompliance strict true
      (ValidatorOutcome.completed 0 ValidatorStdout.invalidJson)).1 = true ∧
    (validateTddCompliance strict true
      (ValidatorOutcome.completed 0 ValidatorStdout.parsedNonDict)).1 = true := by
  refine ⟨?_, rfl, ?_, rfl, rfl, rfl⟩
  · cases strict <;> rfl
  · intro hrc
    simp [validateTddCompliance, hrc]

/-- Witness for C2 at concrete inputs: in strict mode a nonzero validator
exit code is still fail-open. -/
theorem tdd_failure_semantics_witness :
    (validateTddCompliance true true
      (ValidatorOutcome.completed 2 ValidatorStdout.blank)).1 = true :=
  (tdd_failure_semantics true 2 ValidatorStdout.blank).2.2.1 (by decide)

/-- C6 counterexample: it is not the case that every parsed response
yields continue = true exactly when its `decision` field equals
"approve": a response object with no `decision` field at all yields
continue = true, because the code reads the field as
`data.get("decision", "approve")`. -/
theorem tdd_parse_decision_not_iff :
    ¬ ∀ r : TddResponse,
        ((interpretTddResponse r).1 = true ↔ r.decision = some "approve") := by
  intro h
  have h2 := (h ⟨none, none, none, none, none⟩).mp rfl
  cases h2

/-- C6 amended: for every parsed response object, continue is true
exactly when the `decision` field — defaulted to "approve" when absent —
equals "approve"; any other decision value yields continue = false with
the message assembled, in order, from the stop reason (defaulted), the
non-empty `reason`, the optional `validationResults` tddPhase and
testCoverage lines, and at most 3 suggestions, joined by newlines. -/
theorem tdd_parse_response_amended (r : TddResponse) :
    ((interpretTddResponse r).1 = true ↔
      r.decision.getD "approve" = "approve") ∧
    ((interpretTddResponse r).1 = false →
      (interpretTddResponse r).2 = String.intercalate "\n"
        ((["🛑 " ++ r.stopReason.getD "TDD validation failed"] ++
          (if (r.reason.getD "").isEmpty then [] else [r.reason.getD ""]) ++
          validationParts r.validationResults) ++
         (if r.suggestions.isSome then suggestionParts (r.suggestions.getD [])
          else []))) := by
  constructor
  · simp [interpretTddResponse]
  · intro h
    have hc : (r.decision.getD "approve" == "approve") = false := by
      simpa [interpretTddResponse] using h
    by_cases hre : (r.reason.getD "").isEmpty
    · cases hs : r.suggestions with
      | none => simp [interpretTddResponse, hc, hre, hs]
      | some ss => simp [interpretTddResponse, hc, hre, hs]
    · cases hs : r.suggestions with
      | none => simp [interpretTddResponse, hc, hre, hs]
      | some ss => simp [interpretTddResponse, hc, hre, hs]

/-- Witness for C6 (amended) at concrete inputs: a "block" decision with
a stop reason and four suggestions is rejected with the assembled
message, suggestions capped at three. -/
theorem tdd_parse_response_amended_witness :
    (interpretTddResponse ⟨some "block", some "nope", none, none,
        some ["a", "b", "c", "d"]⟩).2 =
      String.intercalate "\n"
        ((["🛑 " ++ (some "nope" : Option String).getD "TDD validation failed"] ++
          (if ((none : Option String).getD "").isEmpty then []
           else [(none : Option String).getD ""]) ++
          validationParts none) ++
         (if (some ["a", "b", "c", "d"] : Option (List String)).isSome then
            suggestionParts
              ((some ["a", "b", "c", "d"] : Option (List String)).getD [])
          else [])) :=
  (tdd_parse_response_amended ⟨some "block", some "nope", none, none,
      some ["a", "b", "c", "d"]⟩).2 (by decide)

/-- C7: `PostToolLinterHook.process_event` returns continue = true on
every path: other event types, non-edit tools, missing file path, skipped
files, clean files, successful fixes, fixes with remaining issues, failed
fixes, the disabled-auto-fix annotation, and the no-manager fallback. -/
theorem linter_never_blocks (eventType toolName : String)
    (filePath : Option String) (shouldProcess : Bool) (run1 : Bool × String)
    (autoFix managerOk : Bool) (autofixExit : Int) (run2 : Bool × String)
    (baseName : String) :
    (linterProcessEvent eventType toolName filePath shouldProcess run1
      autoFix managerOk autofixExit run2 baseName).1 = true := by
  unfold linterProcessEvent
  repeat' split
  all_goals rfl

/-- Events of the auto-fix iteration loop are only subprocess calls and
linter runs: the loop itself neither acquires nor releases permits. -/
theorem runAutofixIterationsTrace_events (outs : List (Bool × Bool)) :
    ∀ e ∈ runAutofixIterationsTrace outs,
      e = AgentEv.subprocCall ∨ e = AgentEv.linterRun := by
  induction outs with
  | nil => intro e he; cases he
  | cons o rest ih =>
    obtain ⟨success, allPass⟩ := o
    intro e he
    cases success with
    | false =>
      simp [runAutofixIterationsTrace] at he
      exact Or.inl he
    | true =>
      cases allPass with
      | true =>
        simp [runAutofixIterationsTrace] at he
        rcases he with h1 | h1
        · exact Or.inl h1
        · exact Or.inr h1
      | false =>
        simp [runAutofixIterationsTrace] at he
        rcases he with h1 | h1 | h1
        · exact Or.inl h1
        · exact Or.inr h1
        · exact ih e h1

/-- C3 counterexample: it is false that linter runs in the auto-fix loop
happen with the `agents` permit not held. With the permit acquired and
one successful iteration after which the linters pass, the trace is
acquire, subprocess call, linter run, release — and the linter run at
position 2 happens while the permit is held. -/
theorem linter_run_while_permit_held :
    ¬ ∀ (acq : Bool) (outs : List (Bool × Bool)) (i : Nat),
        (executeAutofixTrace acq outs).get? i = some AgentEv.linterRun →
        ¬ heldAt (executeAutofixTrace acq outs) i := by
  intro h
  exact h true [(true, true)] 2 rfl (by decide)

/-- C3 amended: the `agents` permit is acquired once, before the first
auto-fix iteration, and held for the entire loop: the trace opens with
the acquisition, closes with the single release, nothing in between
touches the permit, and every auto-fix subprocess call and every linter
run occurs while the permit is held. -/
theorem agents_permit_held_across_loop (outs : List (Bool × Bool)) :
    (executeAutofixTrace true outs =
      AgentEv.acquirePermit :: runAutofixIterationsTrace outs ++
        [AgentEv.releasePermit] ∧
      AgentEv.acquirePermit ∉ runAutofixIterationsTrace outs ∧
      AgentEv.releasePermit ∉ runAutofixIterationsTrace outs) ∧
    ∀ i e, (executeAutofixTrace true outs).get? i = some e →
      e = AgentEv.subprocCall ∨ e = AgentEv.linterRun →
      heldAt (executeAutofixTrace true outs) i := by
  have hev := runAutofixIterationsTrace_events outs
  have hna : AgentEv.acquirePermit ∉ runAutofixIterationsTrace outs := by
    intro hmem
    rcases hev _ hmem with h1 | h1 <;> cases h1
  have hnr : AgentEv.releasePermit ∉ runAutofixIterationsTrace outs := by
    intro hmem
    rcases hev _ hmem with h1 | h1 <;> cases h1
  refine ⟨⟨rfl, hna, hnr⟩, ?_⟩
  intro i e hget hor
  have htr : executeAutofixTrace true outs =
      (AgentEv.acquirePermit :: runAutofixIterationsTrace outs) ++
        [AgentEv.releasePermit] := rfl
  rw [htr] at hget ⊢
  set body := runAutofixIterationsTrace outs with hbody
  cases i with
  | zero =>
    rw [List.get?_append (by simp)] at hget
    simp only [List.get?_cons_zero, Option.some.injEq] at hget
    rcases hor with h1 | h1 <;> rw [← hget] at h1 <;> cases h1
  | succ j =>
    have hjlt : j < body.length := by
      have hlen : j + 1 <
          ((AgentEv.acquirePermit :: body) ++ [AgentEv.releasePermit]).length := by
        by_contra hge
        rw [List.get?_eq_none.mpr (Nat.le_of_not_lt hge)] at hget
        cases hget
      rw [List.length_append, List.length_cons, List.length_singleton] at hlen
      rcases Nat.lt_or_ge j body.length with h | h
      · exact h
      · exfalso
        have hj : j = body.length :=
          Nat.le_antisymm (by omega) h
        have hge2 : (AgentEv.acquirePermit :: body).length ≤ j + 1 := by
          rw [List.length_cons, hj]
        rw [List.get?_append_right hge2] at hget
        rw [List.length_cons, hj, Nat.sub_self] at hget
        simp only [List.get?_cons_zero, Option.some.injEq] at hget
        rcases hor with h1 | h1 <;> rw [← hget] at h1 <;> cases h1
    have htake : ((AgentEv.acquirePermit :: body) ++
        [AgentEv.releasePermit]).take (j + 1) =
        AgentEv.acquirePermit :: body.take j := by
      rw [List.take_append_eq_append_take]
      rw [show j + 1 - (AgentEv.acquirePermit :: body).length = 0 by
        rw [List.length_cons]; omega]
      rw [List.take_zero, List.append_nil, List.take_succ_cons]
    constructor
    · rw [htake]
      exact List.mem_cons_self _ _
    · rw [htake]
      intro hmem
      rcases List.mem_cons.mp hmem with h1 | h1
      · cases h1
      · exact hnr (List.take_subset _ _ h1)

/-- Witness for C3 (amended) at concrete inputs: the auto-fix subprocess
call at position 1 of the concrete trace runs while the permit is held. -/
theorem agents_permit_held_across_loop_witness :
    heldAt (executeAutofixTrace true [(true, true)]) 1 :=
  (agents_permit_held_across_loop [(true, true)]).2 1 AgentEv.subprocCall rfl
    (Or.inl rfl)

/-- C8: the stdio branch of `_call_mcp_server` writes exactly three
newline-delimited JSON records to the child's stdin, in order: the
`initialize` request carrying protocol version 2024-11-05, a capabilities
block, the client info block and id 0; the `notifications/initialized`
notification carrying no id; and the caller's actual request — reading
exactly two response lines, one right after the first write and one right
after the third. -/
theorem stdio_handshake (req : McpMessage) :
    writesOf (callMcpServer req) =
      [initializeRequest, initializedNotification, req] ∧
    initializeRequest.method = "initialize" ∧
    initializeRequest.protocolVersion = some "2024-11-05" ∧
    initializeRequest.hasCapabilities = true ∧
    initializeRequest.clientName = some "claude-buddy" ∧
    initializeRequest.clientVersion = some "1.0.0" ∧
    initializeRequest.id = some 0 ∧
    initializedNotification.method = "notifications/initialized" ∧
    initializedNotification.id = none ∧
    (callMcpServer req).get? 1 = some StdioAction.readLine ∧
    (callMcpServer req).get? 4 = some StdioAction.readLine ∧
    ((callMcpServer req).filter
      (fun a => a == StdioAction.readLine)).length = 2 :=
  ⟨rfl, rfl, rfl, rfl, rfl, rfl, rfl, rfl, rfl, rfl, rfl, rfl⟩

end ClaudeBuddy
